import Mathlib

/-!
Verification of the audio timeline synthesis and chapter-metadata pipeline
of `hoerbuch.py`, as a shallow embedding in Lean 4.

Conventions of the embedding:
* Python floats are modelled as exact rationals (`ℚ`); the program only
  adds, multiplies and divides durations, and the specified properties are
  about those exact quantities.
* Sample counts and sample rates are natural numbers, as in the source
  (`len(chunk.audio_int16_array)`, `voice.config.sample_rate`).
* The external Piper engine is an abstract parameter: a function from a text
  string to the list of lengths (in samples) of the audio buffers it yields.
* OGG Vorbis comment stores are association lists from string keys to
  values.  A value is either the decimal serialisation of a float
  (represented by the rational it denotes, since Python's `str`/`float`
  round-trip is exact on finite floats) or an arbitrary other string, on
  which `float()` raises.
* Filesystem state is the set (as a list) of existing paths; functions with
  side effects pass it explicitly.  `sys.exit(n)` and a plain `return` from
  a handler are distinguished by `ModeResult`.
-/

/-! ### Constants (`SILENCE_PRE_SECONDS`, `SILENCE_POST_SECONDS`) -/

def SILENCE_PRE_SECONDS : ℚ := 1/2

def SILENCE_POST_SECONDS : ℚ := 5

/-! ### Data model -/

/-- A chapter marker: `{'time_seconds': ..., 'title': ...}` in the source. -/
structure Marker where
  time_seconds : ℚ
  title : String
deriving DecidableEq

/-- Whole-book metadata: the `{"title": ..., "artist": ...}` dict built in `main`. -/
structure BookMetadata where
  title : String
  artist : String
deriving DecidableEq

/-! ### Timeline Recorder (`text_to_ogg`, lines 376-443)

`text_to_ogg` streams Piper audio chunks into the OGG file, appending one
marker per segment at the elapsed time *before* the segment's audio, and
advancing elapsed time by `len(chunk) / sample_rate` for every chunk.
The engine is abstracted by the list of chunk lengths it produces for a
given text. -/

/-- Lengths (in samples) of the audio buffers the synthesis engine yields
for one paragraph of text. -/
def Engine : Type := String → List ℕ

/-- Python's whitespace class for `str.strip` and `\s`:
space, tab, newline, carriage return, vertical tab, form feed. -/
def isPySpace (c : Char) : Bool :=
  c == ' ' || c == '\t' || c == '\n' || c == '\r' || c == '\x0b' || c == '\x0c'

/-- Python `str.strip()`: drop leading and trailing whitespace characters. -/
def pyStrip (l : List Char) : List Char :=
  ((l.dropWhile isPySpace).reverse.dropWhile isPySpace).reverse

/-- Python `text.split("\n\n")`: split on the two-character separator,
leftmost-first and non-overlapping. -/
def splitParas : List Char → List (List Char)
  | [] => [[]]
  | c :: rest =>
    if c = '\n' ∧ rest.head? = some '\n' then [] :: splitParas rest.tail
    else
      let r := splitParas rest
      (c :: r.headD []) :: r.tail
termination_by l => l.length
decreasing_by
  · cases rest
    · simp
    · simp [List.tail]
      omega
  · simp

/-- `paragraphs = [p for p in text_content.split("\n\n") if p.strip()]`,
falling back to `[text_content]` when that list is empty. -/
def paragraphsOf (text_content : String) : List String :=
  let ps := ((splitParas text_content.data).map fun p => (⟨p⟩ : String)).filter
    (fun p => pyStrip p.data ≠ [])
  if ps.isEmpty then [text_content] else ps

/-- Elapsed time after writing the chunks of one paragraph:
`current_time_seconds += len(chunk.audio_int16_array) / sample_rate` per chunk. -/
def writeChunks (sample_rate : ℕ) (t : ℚ) (chunks : List ℕ) : ℚ :=
  chunks.foldl (fun acc c => acc + (c : ℚ) / (sample_rate : ℚ)) t

/-- Elapsed time after synthesizing all paragraphs of one segment's text. -/
def writeSegmentAudio (engine : Engine) (sample_rate : ℕ) (t : ℚ) (text_content : String) : ℚ :=
  (paragraphsOf text_content).foldl (fun acc p => writeChunks sample_rate acc (engine p)) t

/-- The per-segment loop of `text_to_ogg`: record a marker at the current
elapsed time, then write the segment's audio. Returns the markers produced
and the elapsed time after the last segment. -/
def recordSegments (engine : Engine) (sample_rate : ℕ) :
    ℚ → List (String × String) → List Marker × ℚ
  | t, [] => ([], t)
  | t, (title, text_content) :: rest =>
    let t2 := writeSegmentAudio engine sample_rate t text_content
    let r := recordSegments engine sample_rate t2 rest
    (⟨t, title⟩ :: r.1, r.2)

/-- The timing skeleton of `text_to_ogg`: lead-in silence (advancing elapsed
time by the design constant), the segment loop, lead-out silence.  Returns
the marker list and the reported total duration. -/
def text_to_ogg (engine : Engine) (sample_rate : ℕ)
    (segments : List (String × String)) : List Marker × ℚ :=
  let r := recordSegments engine sample_rate SILENCE_PRE_SECONDS segments
  (r.1, r.2 + SILENCE_POST_SECONDS)

/-! ### Scenario inputs for the end-to-end test (claim C3) -/

/-- Test-double engine producing one buffer of `len(text)` samples; at a
sample rate of 10 this is exactly 1 second of audio per 10 characters. -/
def testEngine : Engine := fun s => [s.length]

/-- A 50-character segment text. -/
def introText : String := ⟨List.replicate 50 'a'⟩

/-- A 200-character segment text. -/
def bodyText : String := ⟨List.replicate 200 'b'⟩

/-- A 20-character segment text. -/
def outroText : String := ⟨List.replicate 20 'c'⟩

/-- The three segments of the end-to-end scenario. -/
def scenarioSegments : List (String × String) :=
  [("Intro", introText), ("Body", bodyText), ("Outro", outroText)]

/-! ### OGG Vorbis comment store (Marker Codec, lines 423-468)

Mutagen's `OggVorbis` tag object behaves as a dictionary from string keys
to values.  A value is modelled as either `num q` — the string `str(x)` of
a float `x` (represented by the rational it denotes, since `float(str(x))
== x` exactly for finite floats) — or `raw s`, an arbitrary string on which
`float()` raises `ValueError`. -/

/-- One OGG Vorbis comment value. -/
inductive VorbisValue where
  | num (q : ℚ)
  | raw (s : String)
deriving DecidableEq

/-- `float(value)`: succeeds exactly on serialized floats. -/
def parseFloat? : VorbisValue → Option ℚ
  | .num q => some q
  | .raw _ => none

/-- The textual content of a value, as used for `chapter_title_{i}` fields. -/
def VorbisValue.text : VorbisValue → String
  | .num q => toString q
  | .raw s => s

/-- An OGG Vorbis comment store: an association list of (key, value). -/
def VorbisStore : Type := List (String × VorbisValue)

/-- Dictionary lookup `audio[key]` (first matching entry). -/
def vLookup (k : String) : VorbisStore → Option VorbisValue
  | [] => none
  | e :: rest => if e.1 = k then some e.2 else vLookup k rest

/-- `del audio[key]`: remove every entry with the given key. -/
def vErase (k : String) (st : VorbisStore) : VorbisStore :=
  st.filter (fun e => e.1 ≠ k)

/-- Dictionary assignment `audio[key] = value`. -/
def vInsert (k : String) (v : VorbisValue) (st : VorbisStore) : VorbisStore :=
  (k, v) :: vErase k st

/-- The key `f'chapter_start_time_{i}'`. -/
def timeKey (i : ℕ) : String := "chapter_start_time_" ++ Nat.repr i

/-- The key `f'chapter_title_{i}'`. -/
def titleKey (i : ℕ) : String := "chapter_title_" ++ Nat.repr i

/-- Python `key.startswith('chapter_')`: the first 8 characters are
`chapter_`. -/
def isChapterKey (k : String) : Bool := k.data.take 8 = "chapter_".data

/-- The indexed-field loop of the write path:
`audio[f'chapter_start_time_{i}'] = [str(marker['time_seconds'])]` and
`audio[f'chapter_title_{i}'] = [marker['title']]` for `i, marker` in
`enumerate(markers)` (starting at `i`). -/
def writeChapterFields : List Marker → ℕ → VorbisStore → VorbisStore
  | [], _, st => st
  | m :: rest, i, st =>
    writeChapterFields rest (i + 1)
      (vInsert (titleKey i) (.raw m.title) (vInsert (timeKey i) (.num m.time_seconds) st))

/-- The Marker Codec write path (`text_to_ogg`, lines 423-436): set the
whole-file title and artist, delete every key starting with `chapter_`,
then write the two indexed fields per marker. -/
def writeOggMarkers (metadata : BookMetadata) (markers : List Marker)
    (st : VorbisStore) : VorbisStore :=
  let s1 := vInsert "title" (.raw metadata.title) st
  let s2 := vInsert "artist" (.raw metadata.artist) s1
  let s3 := s2.filter (fun e => ¬ (isChapterKey e.1 = true))
  writeChapterFields markers 0 s3

/-- The read loop of `read_ogg_markers`: starting at index `i`, read
consecutive `(chapter_start_time_i, chapter_title_i)` pairs; stop at the
first missing index; return `none` when `float()` raises.  The loop of the
source is a `while True`; it is bounded here by a fuel argument that the
top-level entry point instantiates with more iterations than the store has
keys, so the fuel never runs out on the break condition's watch. -/
def readMarkersAux (st : VorbisStore) : ℕ → ℕ → List Marker → Option (List Marker)
  | 0, _, acc => some acc.reverse
  | fuel + 1, i, acc =>
    match vLookup (timeKey i) st, vLookup (titleKey i) st with
    | some tv, some titv =>
      match parseFloat? tv with
      | some t => readMarkersAux st fuel (i + 1) (⟨t, titv.text⟩ :: acc)
      | none => none
    | _, _ => some acc.reverse

/-- `read_ogg_markers` (lines 446-468): run the loop from index 0; an
empty result is reported as `None` ("no markers available"). -/
def read_ogg_markers (st : VorbisStore) : Option (List Marker) :=
  match readMarkersAux st (st.length + 1) 0 [] with
  | none => none
  | some ms => if ms.isEmpty then none else some ms

/-! ### Marker Recovery (`calculate_approximate_markers`, lines 471-497) -/

/-- Total character count across all segments. -/
def totalChars (segments : List (String × String)) : ℕ :=
  (segments.map (fun s => s.2.length)).sum

/-- The per-segment loop of `calculate_approximate_markers`: emit a marker
at the running time, then advance it by `tts_duration * char_ratio`. -/
def approxGo (total_chars : ℕ) (tts_duration : ℚ) :
    ℚ → List (String × String) → List Marker
  | _, [] => []
  | t, (title, text_content) :: rest =>
    ⟨t, title⟩ ::
      approxGo total_chars tts_duration
        (t + tts_duration * ((text_content.length : ℚ) / (total_chars : ℚ))) rest

/-- `calculate_approximate_markers` (lines 471-497), given the total
duration of the existing OGG file (the file-read step is a collaborator). -/
def calculate_approximate_markers (segments : List (String × String))
    (total_ogg_duration : ℚ) : List Marker :=
  let fixed_silence_duration := SILENCE_PRE_SECONDS + SILENCE_POST_SECONDS
  let tts_duration := max 0 (total_ogg_duration - fixed_silence_duration)
  if totalChars segments = 0 ∨ tts_duration = 0 then []
  else approxGo (totalChars segments) tts_duration SILENCE_PRE_SECONDS segments

/-! ### Marker Projector (`write_mp3_chapter_tags`, lines 537-574) -/

/-- One ID3 `CHAP` frame as written by the source: element id `chp_{n}`,
start and end times in milliseconds, and the nested `TIT2` title. -/
structure ChapFrame where
  element_id : String
  start_time : ℤ
  end_time : ℤ
  chap_title : String
deriving DecidableEq

/-- The ID3 tag set written to the MP3: whole-file `TIT2`/`TPE1` plus the
chapter frames. -/
structure Id3Tags where
  tit2 : String
  tpe1 : String
  chaps : List ChapFrame
deriving DecidableEq

/-- Python `int(x)` on a float: truncation toward zero. -/
def pyIntTrunc (q : ℚ) : ℤ := if q < 0 then -⌊-q⌋ else ⌊q⌋

/-- The chapter loop of `write_mp3_chapter_tags`: `chapter_frame_id` is
incremented before each frame, `start_time = int(t * 1000)` and
`end_time` is the next marker's start (`markers[chapter_frame_id]`) when
`chapter_frame_id < len(markers)`, else 0. -/
def mp3ChapFramesGo (markers : List Marker) : ℕ → List Marker → List ChapFrame
  | _, [] => []
  | chapter_frame_id, m :: rest =>
    let id1 := chapter_frame_id + 1
    let end_ms : ℤ :=
      if id1 < markers.length then
        pyIntTrunc ((markers.getD id1 ⟨0, ""⟩).time_seconds * 1000)
      else 0
    ⟨"chp_" ++ Nat.repr id1, pyIntTrunc (m.time_seconds * 1000), end_ms, m.title⟩ ::
      mp3ChapFramesGo markers id1 rest

/-- `write_mp3_chapter_tags` (lines 537-574): the tag structure produced
for a marker list and book metadata. -/
def write_mp3_chapter_tags (markers : List Marker) (metadata : BookMetadata) : Id3Tags :=
  ⟨metadata.title, metadata.artist, mp3ChapFramesGo markers 0 markers⟩

/-! ### Filename derivation (`safe_filename`, lines 577-581) -/

/-- Python's `\w` word class (ASCII fragment): letters, digits, underscore. -/
def isPyWordChar (c : Char) : Bool := c.isAlphanum || c == '_'

/-- A character surviving `re.sub(r'[^\w\s\-]', '', title)`. -/
def keepChar (c : Char) : Bool := isPyWordChar c || isPySpace c || c == '-'

/-- Worker for `re.sub(r'\s+', '_', s)`: the flag records whether the
previous character was whitespace (inside a run already replaced). -/
def collapseWsAux : Bool → List Char → List Char
  | _, [] => []
  | inRun, c :: rest =>
    if isPySpace c then
      if inRun then collapseWsAux true rest else '_' :: collapseWsAux true rest
    else c :: collapseWsAux false rest

/-- `re.sub(r'\s+', '_', s)`: replace every maximal whitespace run by one
underscore. -/
def collapseWs (l : List Char) : List Char := collapseWsAux false l

/-- `f"{counter:02d}"`: decimal, zero-padded to two digits. -/
def pad2 (counter : ℕ) : String :=
  if counter < 10 then "0" ++ Nat.repr counter else Nat.repr counter

/-- The strip/collapse/truncate core of `safe_filename`:
`re.sub(r'[^\w\s\-]', '', title).strip()` then `re.sub(r'\s+', '_', ·)`
then `[:50]`. -/
def sanitizeTitle (title : String) : String :=
  ⟨(collapseWs (pyStrip (title.data.filter keepChar))).take 50⟩

/-- `safe_filename(title, counter)` (lines 577-581). -/
def safe_filename (title : String) (counter : ℕ) : String :=
  pad2 counter ++ "_" ++ sanitizeTitle title

/-! ### Filesystem model and chapter dispatch (`main`, `run_chapter_logic`)

The filesystem is the list of paths that exist.  `sys.exit(code)` versus a
plain `return` (process later exits 0) is recorded in `ModeResult`. -/

/-- The set of existing paths. -/
abbrev FS : Type := List String

/-- `os.path.exists` / `Path.exists`. -/
def fsExists (fs : FS) (p : String) : Bool := p ∈ fs

/-- File creation (open for writing). -/
def fsAdd (fs : FS) (p : String) : FS := if p ∈ fs then fs else p :: fs

/-- `os.remove`. -/
def fsRemove (fs : FS) (p : String) : FS := fs.filter (fun q => q ≠ p)

/-- How a code path ended: a normal `return` (the process goes on to exit
with status 0) or `sys.exit(code)`.  Carries the resulting filesystem. -/
inductive ModeResult where
  | returned (fs : FS)
  | exited (code : ℕ) (fs : FS)

/-- Exit status of the process for a finished code path. -/
def ModeResult.exitCode : ModeResult → ℕ
  | .returned _ => 0
  | .exited c _ => c

/-- Final filesystem of a finished code path. -/
def ModeResult.fs : ModeResult → FS
  | .returned fs => fs
  | .exited _ fs => fs

/-- File effects of `synthesize_separate_chapter` (lines 583-639) on a
successful run: the OGG at `output_path` is written; with
`convert_to_mp3`, `convert_ogg_to_mp3` then writes the MP3 and deletes the
OGG (`delete_ogg=True`). -/
def synthesize_separate_chapter (fs : FS) (oggPath mp3Path : String)
    (convert_to_mp3 : Bool) : FS :=
  let fs1 := fsAdd fs oggPath
  if convert_to_mp3 then fsRemove (fsAdd fs1 mp3Path) oggPath else fs1

/-- The per-chapter output base path
`input_path.parent / f"{input_path.stem}_{safe_file_name}"` (with the
parent directory folded into `stem`). -/
def chapterBase (stem title : String) (counter : ℕ) : String :=
  stem ++ "_" ++ safe_filename title counter

/-- The final per-chapter output: the `.mp3` sibling when MP3 conversion
is requested (`out_ogg.with_suffix(".mp3") if args.mp3 else out_ogg`). -/
def chapterFinal (base : String) (mp3 : Bool) : String :=
  if mp3 then base ++ ".mp3" else base ++ ".ogg"

/-- The direct-chapter branch of `run_chapter_logic` (lines 291-306) for an
integer selection `idx`.  In range: derive the per-chapter output paths; if
the final output exists, print a warning and `return`; otherwise
synthesize.  Out of range (`none` here): the source falls through to the
interactive menu after a warning. -/
def run_chapter_direct (fs : FS) (segments : List (String × String)) (idx : ℤ)
    (stem : String) (mp3 : Bool) : Option ModeResult :=
  if 1 ≤ idx ∧ idx ≤ segments.length then
    let base := chapterBase stem (segments.getD (idx.toNat - 1) ("", "")).1 idx.toNat
    if fsExists fs (chapterFinal base mp3) then some (.returned fs)
    else some (.returned (synthesize_separate_chapter fs (base ++ ".ogg") (base ++ ".mp3") mp3))
  else none

/-- The single-chapter-number selection inside the interactive menu
(lines 352-366): same output-exists check, warning and `return`; an
out-of-range number also just warns and returns. -/
def run_interactive_single (fs : FS) (segments : List (String × String)) (idx : ℕ)
    (stem : String) (mp3 : Bool) : ModeResult :=
  if 1 ≤ idx ∧ idx ≤ segments.length then
    let base := chapterBase stem (segments.getD (idx - 1) ("", "")).1 idx
    if fsExists fs (chapterFinal base mp3) then .returned fs
    else .returned (synthesize_separate_chapter fs (base ++ ".ogg") (base ++ ".mp3") mp3)
  else .returned fs

/-- The split-all loop of the interactive menu (lines 331-349), file
effects on the failure-free path: per segment, skip when the final output
exists, else synthesize that chapter. -/
def run_split_go (stem : String) (mp3 : Bool) : FS → ℕ → List (String × String) → FS
  | fs, _, [] => fs
  | fs, i, (title, _text) :: rest =>
    let base := chapterBase stem title i
    if fsExists fs (chapterFinal base mp3) then run_split_go stem mp3 fs (i + 1) rest
    else
      run_split_go stem mp3
        (synthesize_separate_chapter fs (base ++ ".ogg") (base ++ ".mp3") mp3) (i + 1) rest

/-- Outcome of one `convert_ogg_to_mp3` call (lines 508-535): `ffmpeg`
succeeded; or failed with `CalledProcessError`/`FileNotFoundError`, which
the function catches, returning `False`; or some other exception
propagated out of the call. -/
inductive ConvertOutcome where
  | success
  | failedCaught
  | raised

/-- The `except` handler of `main` (lines 793-806): delete the OGG if it
exists and this run synthesized it, delete the MP3 if it exists and MP3
mode is on, then `sys.exit(1)`. -/
def mainExcept (fs : FS) (oggPath mp3Path : String) (mp3 synthesize_needed : Bool) :
    ModeResult :=
  let fs1 :=
    if fsExists fs oggPath = true ∧ synthesize_needed = true then fsRemove fs oggPath else fs
  let fs2 :=
    if fsExists fs1 mp3Path = true ∧ mp3 = true then fsRemove fs1 mp3Path else fs1
  .exited 1 fs2

/-- File effects of `main`'s standard single-file / combined run
(lines 765-806).  The existence gate on the final output; then the try
block: reuse an existing OGG in MP3 mode (`synthesize_needed = False`), or
synthesize (which may raise mid-stream, after the incomplete OGG was
created); then, in MP3 mode, the conversion with its three outcomes
(an uncaught exception during conversion may leave an incomplete MP3).
`write_mp3_chapter_tags` catches its own errors and changes no file set. -/
def main_run (fs : FS) (oggPath mp3Path : String) (mp3 : Bool)
    (synthRaises : Bool) (conv : ConvertOutcome) : ModeResult :=
  let finalOutput := if mp3 then mp3Path else oggPath
  if fsExists fs finalOutput then .exited 1 fs
  else
    let reuse := mp3 && fsExists fs oggPath
    let synthesize_needed := !reuse
    if synthesize_needed = true ∧ synthRaises = true then
      mainExcept (fsAdd fs oggPath) oggPath mp3Path mp3 synthesize_needed
    else
      let fs1 := if synthesize_needed then fsAdd fs oggPath else fs
      if mp3 then
        match conv with
        | .success =>
          let fs2 := fsAdd fs1 mp3Path
          .returned (if synthesize_needed then fsRemove fs2 oggPath else fs2)
        | .failedCaught => .returned fs1
        | .raised => mainExcept (fsAdd fs1 mp3Path) oggPath mp3Path mp3 synthesize_needed
      else .returned fs1

/-! ### Chapter Selection Controller (`main` lines 696-718 plus
`run_chapter_logic` dispatch)

`args.chapters` is `False`, `True` or an `int`; since Python's `bool` is a
subclass of `int`, `isinstance(x, int)` in `run_chapter_logic` is true for
the booleans as well, and `True` compares and subtracts as `1`. -/

/-- The normalized `-k` value: a Python bool or int. -/
inductive PyChapters where
  | pybool (b : Bool)
  | pyint (n : ℤ)
deriving DecidableEq

/-- Python truthiness of the normalized value (`if args.chapters:`). -/
def PyChapters.truthy : PyChapters → Bool
  | .pybool b => b
  | .pyint n => n ≠ 0

/-- The integer a `PyChapters` value stands for under `isinstance(x, int)`
arithmetic: `False = 0`, `True = 1`. -/
def PyChapters.asInt : PyChapters → ℤ
  | .pybool b => if b then 1 else 0
  | .pyint n => n

/-- The raw `-k` command-line token: absent, a bare flag, or a value. -/
inductive ChapterArg where
  | absent
  | flag
  | value (s : String)

/-- Resolved chapter-selection state of §4.5. -/
inductive ChapterMode where
  | noChapterMode
  | interactive
  | directChapter (n : ℤ)
deriving DecidableEq

/-- Decimal digit run to a number (`none` when empty or non-digit). -/
def decDigits? (l : List Char) : Option ℕ :=
  if l ≠ [] ∧ l.all Char.isDigit then
    some (l.foldl (fun a c => 10 * a + (c.toNat - '0'.toNat)) 0)
  else none

/-- Python `int(s)` for a decimal string token: optional surrounding
whitespace, optional sign, digits (digit-group underscores are not
modelled).  `none` models `ValueError`. -/
def pyParseInt? (s : String) : Option ℤ :=
  match pyStrip s.data with
  | '-' :: rest => (decDigits? rest).map (fun n => -(n : ℤ))
  | '+' :: rest => (decDigits? rest).map (fun n => (n : ℤ))
  | l => (decDigits? l).map (fun n => (n : ℤ))

/-- The normalization of `args.chapters` in `main` (lines 697-718):
try `int(...)`; on `ValueError` check whether the token names an existing
file, swapping it with the positional input path when that one does not
exist.  Returns the normalized value and the effective input path. -/
def normalizeChapters (fs : FS) (input_file : String) (arg : ChapterArg) :
    PyChapters × String :=
  match arg with
  | .absent => (.pybool false, input_file)
  | .flag => (.pybool true, input_file)
  | .value s =>
    match pyParseInt? s with
    | some n => (.pyint n, input_file)
    | none =>
      if fsExists fs s then
        if ¬ (fsExists fs input_file = true) then (.pybool true, s)
        else (.pybool true, input_file)
      else (.pybool true, input_file)

/-- The mode `run_chapter_logic` (lines 291-309) dispatches to for a truthy
value: `isinstance(cli_chapters_value, int)` holds for bools too, so the
value is used as the chapter index (`True` acts as 1); in range it is a
direct chapter, otherwise the function warns and falls into the
interactive menu. -/
def run_chapter_mode (v : PyChapters) (segment_count : ℕ) : ChapterMode :=
  if 1 ≤ v.asInt ∧ v.asInt ≤ segment_count then .directChapter v.asInt
  else .interactive

/-- The composed resolution: `main`'s normalization, its `if args.chapters:`
truthiness gate, and `run_chapter_logic`'s dispatch.  Returns the selected
mode and the effective input path. -/
def resolveChapterMode (fs : FS) (input_file : String) (arg : ChapterArg)
    (segment_count : ℕ) : ChapterMode × String :=
  let r := normalizeChapters fs input_file arg
  if r.1.truthy then (run_chapter_mode r.1 segment_count, r.2)
  else (.noChapterMode, r.2)

/-! ### A decimal decoder, used to show `Nat.repr` is injective (the
indexed metadata keys `chapter_start_time_{i}` are then pairwise
distinct). -/

/-- Value of a decimal digit character. -/
def digitVal (c : Char) : ℕ := c.toNat - '0'.toNat

/-- Decode most-significant-first decimal digits. -/
def decodeDec (l : List Char) : ℕ := l.foldl (fun a c => 10 * a + digitVal c) 0

/-- Least-significant-first digit list of `n` (empty for 0). -/
def decDigitsRev (n : ℕ) : List Char :=
  if n = 0 then [] else Nat.digitChar (n % 10) :: decDigitsRev (n / 10)
termination_by n
decreasing_by
  exact Nat.div_lt_self (Nat.pos_of_ne_zero (by assumption)) (by norm_num)

/-! ## Lemmas about paragraphs and the Timeline Recorder -/

theorem pyStrip_ne_nil {l : List Char} (c : Char) (hc : c ∈ l) (hcs : isPySpace c = false) :
    pyStrip l ≠ [] := by
  intro h
  unfold pyStrip at h
  rw [List.reverse_eq_nil_iff, List.dropWhile_eq_nil_iff] at h
  have h3 : ∀ x ∈ l, isPySpace x = true := by
    intro x hx
    rw [← List.takeWhile_append_dropWhile (p := isPySpace) (l := l)] at hx
    rcases List.mem_append.mp hx with h4 | h4
    · exact List.mem_takeWhile_imp h4
    · have := h x (by simpa using h4)
      simpa using this
  rw [h3 c hc] at hcs
  exact Bool.true_eq_false.mp hcs

theorem splitParas_no_newline {l : List Char} (h : '\n' ∉ l) : splitParas l = [l] := by
  induction l with
  | nil => rw [splitParas]
  | cons c rest ih =>
    have hc : c ≠ '\n' := fun he => h (he ▸ List.mem_cons_self c rest)
    have hr : '\n' ∉ rest := fun hm => h (List.mem_cons_of_mem c hm)
    rw [splitParas, if_neg (fun hand => hc hand.1), ih hr]
    rfl

theorem paragraphsOf_single (text_content : String) (c : Char) (hc : c ∈ text_content.data)
    (hcs : isPySpace c = false) (hn : '\n' ∉ text_content.data) :
    paragraphsOf text_content = [text_content] := by
  rw [paragraphsOf]
  rw [splitParas_no_newline hn]
  simp only [List.map_cons, List.map_nil, List.filter]
  rw [decide_eq_true (pyStrip_ne_nil c hc hcs)]
  rfl

theorem paragraphsOf_replicate (n : ℕ) (c : Char) (hn : n ≠ 0) (hc : isPySpace c = false)
    (hne : c ≠ '\n') : paragraphsOf ⟨List.replicate n c⟩ = [⟨List.replicate n c⟩] := by
  apply paragraphsOf_single _ c
  · show c ∈ List.replicate n c
    simp [List.mem_replicate, hn]
  · exact hc
  · show ¬ '\n' ∈ List.replicate n c
    simp [List.mem_replicate]
    intro
    exact fun he => hne he.symm

theorem mem_paragraphsOf_ne_empty {text_content : String} (htext : text_content ≠ "")
    {p : String} (hp : p ∈ paragraphsOf text_content) : p ≠ "" := by
  intro hpe
  subst hpe
  rw [paragraphsOf] at hp
  split at hp
  · exact htext (List.mem_singleton.mp hp).symm
  · have h5 := List.of_mem_filter hp
    simp only [decide_eq_true_eq] at h5
    exact h5 rfl

theorem paragraphsOf_ne_nil (text_content : String) : paragraphsOf text_content ≠ [] := by
  simp only [paragraphsOf]
  split
  · simp
  · next he =>
    intro hcon
    rw [hcon] at he
    simp at he

theorem writeChunks_le (sample_rate : ℕ) (t : ℚ) (chunks : List ℕ) :
    t ≤ writeChunks sample_rate t chunks := by
  induction chunks generalizing t with
  | nil => exact le_refl t
  | cons c rest ih =>
    refine le_trans ?_ (ih (t + (c : ℚ) / (sample_rate : ℚ)))
    have : (0 : ℚ) ≤ (c : ℚ) / (sample_rate : ℚ) :=
      div_nonneg (Nat.cast_nonneg c) (Nat.cast_nonneg sample_rate)
    linarith

theorem writeChunks_lt (sample_rate : ℕ) (hr : 0 < sample_rate) (c : ℕ)
    (hpos : 0 < c) : ∀ (chunks : List ℕ) (t : ℚ), c ∈ chunks →
    t < writeChunks sample_rate t chunks := by
  intro chunks
  induction chunks with
  | nil => intro t hc; cases hc
  | cons d rest ih =>
    intro t hc
    have hd : (0 : ℚ) ≤ (d : ℚ) / (sample_rate : ℚ) :=
      div_nonneg (Nat.cast_nonneg d) (Nat.cast_nonneg sample_rate)
    rcases List.mem_cons.mp hc with rfl | hmem
    · have hpos2 : (0 : ℚ) < (c : ℚ) / (sample_rate : ℚ) :=
        div_pos (by exact_mod_cast hpos) (by exact_mod_cast hr)
      calc t < t + (c : ℚ) / (sample_rate : ℚ) := by linarith
        _ ≤ _ := writeChunks_le sample_rate _ rest
    · calc t ≤ t + (d : ℚ) / (sample_rate : ℚ) := by linarith
        _ < _ := ih _ hmem

theorem foldl_writeChunks_le (engine : Engine) (sample_rate : ℕ) (ps : List String) :
    ∀ t : ℚ, t ≤ ps.foldl (fun acc p => writeChunks sample_rate acc (engine p)) t := by
  induction ps with
  | nil => intro t; exact le_refl t
  | cons p rest ih =>
    intro t
    exact le_trans (writeChunks_le sample_rate t (engine p)) (ih _)

theorem writeSegmentAudio_le (engine : Engine) (sample_rate : ℕ) (t : ℚ)
    (text_content : String) : t ≤ writeSegmentAudio engine sample_rate t text_content :=
  foldl_writeChunks_le engine sample_rate (paragraphsOf text_content) t

theorem writeSegmentAudio_lt (engine : Engine) (sample_rate : ℕ) (hr : 0 < sample_rate)
    (t : ℚ) (text_content : String) (htext : text_content ≠ "")
    (heng : ∀ s : String, s ≠ "" → ∃ c ∈ engine s, 0 < c) :
    t < writeSegmentAudio engine sample_rate t text_content := by
  rw [writeSegmentAudio]
  rcases hq : paragraphsOf text_content with _ | ⟨p, rest⟩
  · exact absurd hq (paragraphsOf_ne_nil text_content)
  · rw [List.foldl_cons]
    have hpne : p ≠ "" :=
      mem_paragraphsOf_ne_empty htext (hq ▸ List.mem_cons_self p rest)
    obtain ⟨c, hcm, hcpos⟩ := heng p hpne
    exact lt_of_lt_of_le (writeChunks_lt sample_rate hr c hcpos (engine p) t hcm)
      (foldl_writeChunks_le engine sample_rate rest _)

theorem recordSegments_titles (engine : Engine) (sample_rate : ℕ) :
    ∀ (t : ℚ) (segments : List (String × String)),
    (recordSegments engine sample_rate t segments).1.map Marker.title = segments.map Prod.fst
  | _, [] => rfl
  | t, (title, text_content) :: rest => by
    simp only [recordSegments, List.map_cons]
    rw [recordSegments_titles engine sample_rate _ rest]

theorem recordSegments_length (engine : Engine) (sample_rate : ℕ) (t : ℚ)
    (segments : List (String × String)) :
    (recordSegments engine sample_rate t segments).1.length = segments.length := by
  have := recordSegments_titles engine sample_rate t segments
  have h1 := congrArg List.length this
  simpa using h1

theorem recordSegments_head_time (engine : Engine) (sample_rate : ℕ) (t : ℚ)
    (s : String × String) (rest : List (String × String)) :
    ((recordSegments engine sample_rate t (s :: rest)).1.map Marker.time_seconds).head? =
      some t := by
  cases s
  simp [recordSegments]

theorem recordSegments_chain_le (engine : Engine) (sample_rate : ℕ) :
    ∀ (t : ℚ) (segments : List (String × String)),
    List.Chain' (· ≤ ·)
      ((recordSegments engine sample_rate t segments).1.map Marker.time_seconds)
  | _, [] => List.chain'_nil
  | t, (title, text_content) :: rest => by
    simp only [recordSegments, List.map_cons]
    rw [List.chain'_cons']
    constructor
    · intro y hy
      cases rest with
      | nil => simp [recordSegments] at hy
      | cons s rest2 =>
        rw [recordSegments_head_time engine sample_rate _ s rest2] at hy
        rcases Option.mem_some_iff.mp hy with rfl
        exact writeSegmentAudio_le engine sample_rate t text_content
    · exact recordSegments_chain_le engine sample_rate _ rest

theorem recordSegments_chain_lt (engine : Engine) (sample_rate : ℕ) (hr : 0 < sample_rate)
    (heng : ∀ s : String, s ≠ "" → ∃ c ∈ engine s, 0 < c) :
    ∀ (t : ℚ) (segments : List (String × String)),
    (∀ s ∈ segments, s.2 ≠ "") →
    List.Chain' (· < ·)
      ((recordSegments engine sample_rate t segments).1.map Marker.time_seconds)
  | _, [], _ => List.chain'_nil
  | t, (title, text_content) :: rest, hne => by
    simp only [recordSegments, List.map_cons]
    rw [List.chain'_cons']
    constructor
    · intro y hy
      cases rest with
      | nil => simp [recordSegments] at hy
      | cons s rest2 =>
        rw [recordSegments_head_time engine sample_rate _ s rest2] at hy
        rcases Option.mem_some_iff.mp hy with rfl
        exact writeSegmentAudio_lt engine sample_rate hr t text_content
          (hne _ (List.mem_cons_self _ _)) heng
    · exact recordSegments_chain_lt engine sample_rate hr heng _ rest
        (fun s hs => hne s (List.mem_cons_of_mem _ hs))

/-- C2: the Timeline Recorder emits exactly one marker per segment, in
segment order, with non-decreasing offsets; when the sample rate is
positive, every segment text is non-empty and the engine yields at least
one buffer of positive length for non-empty text, the offsets are strictly
increasing and the marker count equals the segment count. -/
theorem text_to_ogg_marker_order (engine : Engine) (sample_rate : ℕ)
    (segments : List (String × String)) :
    (text_to_ogg engine sample_rate segments).1.length = segments.length
    ∧ (text_to_ogg engine sample_rate segments).1.map Marker.title = segments.map Prod.fst
    ∧ List.Chain' (· ≤ ·)
        ((text_to_ogg engine sample_rate segments).1.map Marker.time_seconds)
    ∧ (0 < sample_rate →
       (∀ s ∈ segments, s.2 ≠ "") →
       (∀ s : String, s ≠ "" → ∃ c ∈ engine s, 0 < c) →
       List.Chain' (· < ·)
         ((text_to_ogg engine sample_rate segments).1.map Marker.time_seconds)) := by
  refine ⟨?_, ?_, ?_, ?_⟩
  · exact recordSegments_length engine sample_rate SILENCE_PRE_SECONDS segments
  · exact recordSegments_titles engine sample_rate SILENCE_PRE_SECONDS segments
  · exact recordSegments_chain_le engine sample_rate SILENCE_PRE_SECONDS segments
  · intro hr hne heng
    exact recordSegments_chain_lt engine sample_rate hr heng SILENCE_PRE_SECONDS segments hne

/-- Witness for C2 at a concrete engine, sample rate and segment list. -/
theorem text_to_ogg_marker_order_instance :
    (text_to_ogg (fun _ => [1]) 1 [("A", "x"), ("B", "y")]).1.length = 2
    ∧ List.Chain' (· < ·)
      ((text_to_ogg (fun _ => [1]) 1 [("A", "x"), ("B", "y")]).1.map Marker.time_seconds) := by
  have h := text_to_ogg_marker_order (fun _ => [1]) 1 [("A", "x"), ("B", "y")]
  refine ⟨h.1, h.2.2.2 (by norm_num) (by decide) ?_⟩
  intro s _
  exact ⟨1, List.mem_singleton.mpr rfl, Nat.one_pos⟩

/-- C3 (amended): in the end-to-end scenario (lead-in 0.5s, lead-out 5.0s,
engine yielding 1 second of audio per 10 characters at sample rate 10,
segments of 50, 200, 20 characters), the markers are at 0.5s, 5.5s, 25.5s
and the reported total duration is 32.5s. -/
theorem text_to_ogg_scenario :
    text_to_ogg testEngine 10 scenarioSegments =
      ([⟨1/2, "Intro"⟩, ⟨11/2, "Body"⟩, ⟨51/2, "Outro"⟩], 65/2) := by
  have hi := paragraphsOf_replicate 50 'a' (by norm_num) rfl (by decide)
  have hb := paragraphsOf_replicate 200 'b' (by norm_num) rfl (by decide)
  have ho := paragraphsOf_replicate 20 'c' (by norm_num) rfl (by decide)
  simp only [text_to_ogg, scenarioSegments, recordSegments, writeSegmentAudio,
    introText, bodyText, outroText, hi, hb, ho, testEngine, writeChunks,
    List.foldl_cons, List.foldl_nil, SILENCE_PRE_SECONDS, SILENCE_POST_SECONDS]
  norm_num [String.length]

/-- C3 counterexample: the scenario's reported total duration is not the
claimed 47.5 seconds. -/
theorem text_to_ogg_scenario_total_ne :
    (text_to_ogg testEngine 10 scenarioSegments).2 ≠ 95/2 := by
  have hi := paragraphsOf_replicate 50 'a' (by norm_num) rfl (by decide)
  have hb := paragraphsOf_replicate 200 'b' (by norm_num) rfl (by decide)
  have ho := paragraphsOf_replicate 20 'c' (by norm_num) rfl (by decide)
  simp only [text_to_ogg, scenarioSegments, recordSegments, writeSegmentAudio,
    introText, bodyText, outroText, hi, hb, ho, testEngine, writeChunks,
    List.foldl_cons, List.foldl_nil, SILENCE_PRE_SECONDS, SILENCE_POST_SECONDS]
  norm_num [String.length]

/-! ## Decimal representation: `Nat.repr` is injective -/

theorem digitVal_digitChar {d : ℕ} (h : d < 10) : digitVal (Nat.digitChar d) = d := by
  interval_cases d <;> rfl

theorem decDigitsRev_of_ne_zero {n : ℕ} (hn : n ≠ 0) :
    decDigitsRev n = Nat.digitChar (n % 10) :: decDigitsRev (n / 10) := by
  rw [decDigitsRev, if_neg hn]

theorem toDigitsCore_eq_decDigitsRev :
    ∀ (fuel n : ℕ) (ds : List Char), n ≠ 0 → n ≤ fuel →
    Nat.toDigitsCore 10 fuel n ds = (decDigitsRev n).reverse ++ ds := by
  intro fuel
  induction fuel with
  | zero => intro n ds hn hf; omega
  | succ f ih =>
    intro n ds hn hf
    rw [Nat.toDigitsCore]
    by_cases hq : n / 10 = 0
    · simp only [hq, if_true]
      rw [decDigitsRev_of_ne_zero hn, hq, decDigitsRev]
      simp
    · simp only [hq, if_false]
      have hlt : n / 10 < n := Nat.div_lt_self (Nat.pos_of_ne_zero hn) (by norm_num)
      rw [ih (n / 10) _ hq (by omega)]
      rw [decDigitsRev_of_ne_zero hn]
      simp

theorem decodeDec_reverse_decDigitsRev : ∀ n : ℕ, decodeDec (decDigitsRev n).reverse = n := by
  intro n
  induction n using Nat.strong_induction_on with
  | _ n ih =>
    by_cases hn : n = 0
    · subst hn
      rw [decDigitsRev]
      rfl
    · rw [decDigitsRev, if_neg hn]
      have hlt : n / 10 < n := Nat.div_lt_self (Nat.pos_of_ne_zero hn) (by norm_num)
      have hmod : n % 10 < 10 := Nat.mod_lt n (by norm_num)
      have h1 := ih (n / 10) hlt
      unfold decodeDec at h1 ⊢
      rw [List.reverse_cons, List.foldl_append, h1, List.foldl_cons, List.foldl_nil]
      rw [digitVal_digitChar hmod]
      omega

theorem decodeDec_toDigits (n : ℕ) : decodeDec (Nat.toDigits 10 n) = n := by
  by_cases hn : n = 0
  · subst hn
    rfl
  · rw [Nat.toDigits, toDigitsCore_eq_decDigitsRev (n + 1) n [] hn (by omega)]
    rw [List.append_nil]
    exact decodeDec_reverse_decDigitsRev n

theorem natRepr_injective {m n : ℕ} (h : Nat.repr m = Nat.repr n) : m = n := by
  have h2 : Nat.toDigits 10 m = Nat.toDigits 10 n := by
    have := congrArg String.data h
    simpa [Nat.repr, List.asString] using this
  calc m = decodeDec (Nat.toDigits 10 m) := (decodeDec_toDigits m).symm
    _ = decodeDec (Nat.toDigits 10 n) := by rw [h2]
    _ = n := decodeDec_toDigits n

/-! ## Lemmas about the Vorbis comment store and the Marker Codec -/

theorem timeKey_injective {i j : ℕ} (h : timeKey i = timeKey j) : i = j := by
  have hd := congrArg String.data h
  simp only [timeKey, String.data_append] at hd
  exact natRepr_injective (String.ext (List.append_cancel_left hd))

theorem titleKey_injective {i j : ℕ} (h : titleKey i = titleKey j) : i = j := by
  have hd := congrArg String.data h
  simp only [titleKey, String.data_append] at hd
  exact natRepr_injective (String.ext (List.append_cancel_left hd))

theorem timeKey_ne_titleKey (i j : ℕ) : timeKey i ≠ titleKey j := by
  intro h
  have hd := congrArg String.data h
  simp only [timeKey, titleKey, String.data_append] at hd
  have h8 := congrArg (fun l => l[8]?) hd
  simp only at h8
  rw [List.getElem?_append_left (by decide), List.getElem?_append_left (by decide)] at h8
  exact absurd h8 (by decide)

theorem isChapterKey_timeKey (i : ℕ) : isChapterKey (timeKey i) = true := by
  have h : (timeKey i).data.take 8 = "chapter_".data := by
    rw [timeKey, String.data_append,
      show ("chapter_start_time_".data : List Char) = "chapter_".data ++ "start_time_".data
        from rfl,
      List.append_assoc]
    exact List.take_left' rfl
  unfold isChapterKey
  rw [h]
  simp

theorem isChapterKey_titleKey (i : ℕ) : isChapterKey (titleKey i) = true := by
  have h : (titleKey i).data.take 8 = "chapter_".data := by
    rw [titleKey, String.data_append,
      show ("chapter_title_".data : List Char) = "chapter_".data ++ "title_".data from rfl,
      List.append_assoc]
    exact List.take_left' rfl
  unfold isChapterKey
  rw [h]
  simp

theorem vLookup_vErase_ne {k k2 : String} (h : k2 ≠ k) (st : VorbisStore) :
    vLookup k (vErase k2 st) = vLookup k st := by
  induction st with
  | nil => rfl
  | cons e rest ih =>
    rw [vErase, List.filter_cons]
    by_cases he : e.1 = k2
    · rw [if_neg (by simp [he]), vLookup, if_neg (by rw [he]; exact h)]
      exact ih
    · rw [if_pos (by simp [he]), vLookup, vLookup]
      by_cases hek : e.1 = k
      · rw [if_pos hek, if_pos hek]
      · rw [if_neg hek, if_neg hek]
        exact ih

theorem vLookup_vInsert_self (k : String) (v : VorbisValue) (st : VorbisStore) :
    vLookup k (vInsert k v st) = some v := by
  rw [vInsert, vLookup, if_pos rfl]

theorem vLookup_vInsert_ne {k k2 : String} (h : k2 ≠ k) (v : VorbisValue) (st : VorbisStore) :
    vLookup k (vInsert k2 v st) = vLookup k st := by
  rw [vInsert, vLookup, if_neg h]
  exact vLookup_vErase_ne h st

theorem vLookup_clearChapters (st : VorbisStore) (k : String) (hk : isChapterKey k = true) :
    vLookup k (st.filter (fun e => ¬ (isChapterKey e.1 = true))) = none := by
  induction st with
  | nil => rfl
  | cons e rest ih =>
    rw [List.filter_cons]
    by_cases he : isChapterKey e.1 = true
    · rw [if_neg (by simp [he])]
      exact ih
    · rw [if_pos (by simp [he]), vLookup, if_neg (fun hek => he (by rw [hek]; exact hk))]
      exact ih

theorem vErase_eq_of_lookup_none {k : String} {st : VorbisStore}
    (h : vLookup k st = none) : vErase k st = st := by
  induction st with
  | nil => rfl
  | cons e rest ih =>
    rw [vLookup] at h
    by_cases he : e.1 = k
    · rw [if_pos he] at h
      exact absurd h (by simp)
    · rw [if_neg he] at h
      rw [vErase, List.filter_cons, if_pos (by simp [he])]
      rw [show List.filter (fun e => decide (e.1 ≠ k)) rest = vErase k rest from rfl, ih h]

theorem vLookup_writeChapterFields_out (ms : List Marker) :
    ∀ (i : ℕ) (st : VorbisStore) (k : String),
    (∀ j, i ≤ j → j < i + ms.length → k ≠ timeKey j ∧ k ≠ titleKey j) →
    vLookup k (writeChapterFields ms i st) = vLookup k st := by
  induction ms with
  | nil => intro i st k _; rfl
  | cons m rest ih =>
    intro i st k hk
    rw [writeChapterFields]
    rw [ih (i + 1) _ k (fun j hj1 hj2 => hk j (by omega) (by simp at hj2 ⊢; omega))]
    have h0 := hk i (le_refl i) (by simp)
    rw [vLookup_vInsert_ne (fun he => h0.2 he.symm)]
    rw [vLookup_vInsert_ne (fun he => h0.1 he.symm)]

theorem vLookup_writeChapterFields_time (ms : List Marker) :
    ∀ (i q : ℕ) (st : VorbisStore), q < ms.length →
    vLookup (timeKey (i + q)) (writeChapterFields ms i st) =
      some (.num ((ms.getD q ⟨0, ""⟩).time_seconds)) := by
  induction ms with
  | nil => intro i q st hq; simp at hq
  | cons m rest ih =>
    intro i q st hq
    rw [writeChapterFields]
    cases q with
    | zero =>
      rw [vLookup_writeChapterFields_out rest (i + 1) _ (timeKey (i + 0))
        (fun j hj1 _ =>
          ⟨fun he => by have := timeKey_injective he; omega,
           timeKey_ne_titleKey (i + 0) j⟩)]
      rw [Nat.add_zero]
      rw [vLookup_vInsert_ne (Ne.symm (timeKey_ne_titleKey i i))]
      rw [vLookup_vInsert_self]
      rfl
    | succ q2 =>
      rw [show i + (q2 + 1) = (i + 1) + q2 from by omega]
      rw [ih (i + 1) q2 _ (by simpa using hq)]
      rfl

theorem vLookup_writeChapterFields_title (ms : List Marker) :
    ∀ (i q : ℕ) (st : VorbisStore), q < ms.length →
    vLookup (titleKey (i + q)) (writeChapterFields ms i st) =
      some (.raw ((ms.getD q ⟨0, ""⟩).title)) := by
  induction ms with
  | nil => intro i q st hq; simp at hq
  | cons m rest ih =>
    intro i q st hq
    rw [writeChapterFields]
    cases q with
    | zero =>
      rw [vLookup_writeChapterFields_out rest (i + 1) _ (titleKey (i + 0))
        (fun j hj1 _ =>
          ⟨fun he => timeKey_ne_titleKey j (i + 0) he.symm,
           fun he => by have := titleKey_injective he; omega⟩)]
      rw [Nat.add_zero]
      rw [vLookup_vInsert_self]
      rfl
    | succ q2 =>
      rw [show i + (q2 + 1) = (i + 1) + q2 from by omega]
      rw [ih (i + 1) q2 _ (by simpa using hq)]
      rfl

theorem writeChapterFields_length (ms : List Marker) :
    ∀ (i : ℕ) (st : VorbisStore),
    (∀ j, i ≤ j → vLookup (timeKey j) st = none ∧ vLookup (titleKey j) st = none) →
    (writeChapterFields ms i st).length = st.length + 2 * ms.length := by
  induction ms with
  | nil => intro i st _; simp [writeChapterFields]
  | cons m rest ih =>
    intro i st hnone
    rw [writeChapterFields]
    have h0 := hnone i (le_refl i)
    have hlen2 :
        (vInsert (titleKey i) (.raw m.title)
          (vInsert (timeKey i) (.num m.time_seconds) st)).length = st.length + 2 := by
      rw [vInsert, vErase_eq_of_lookup_none
        (by rw [vLookup_vInsert_ne (timeKey_ne_titleKey i i)]; exact h0.2)]
      rw [vInsert, vErase_eq_of_lookup_none h0.1]
      simp
    rw [ih (i + 1) _ (fun j hj => by
      constructor
      · rw [vLookup_vInsert_ne (fun he => timeKey_ne_titleKey j i he.symm)]
        rw [vLookup_vInsert_ne (fun he => by have := timeKey_injective he; omega)]
        exact (hnone j (by omega)).1
      · rw [vLookup_vInsert_ne (fun he => by have := titleKey_injective he; omega)]
        rw [vLookup_vInsert_ne (timeKey_ne_titleKey i j)]
        exact (hnone j (by omega)).2)]
    rw [hlen2]
    simp
    ring

theorem readMarkersAux_run (st : VorbisStore) (ms : List Marker)
    (hT : ∀ q, q < ms.length →
      vLookup (timeKey q) st = some (.num ((ms.getD q ⟨0, ""⟩).time_seconds)))
    (hN : ∀ q, q < ms.length →
      ∃ w, vLookup (titleKey q) st = some w ∧ w.text = (ms.getD q ⟨0, ""⟩).title)
    (hstop : vLookup (timeKey ms.length) st = none ∨ vLookup (titleKey ms.length) st = none) :
    ∀ (fuel i : ℕ) (acc : List Marker), i ≤ ms.length → ms.length - i < fuel →
    readMarkersAux st fuel i acc = some (acc.reverse ++ ms.drop i) := by
  intro fuel
  induction fuel with
  | zero => intro i acc hi hf; omega
  | succ f ih =>
    intro i acc hi hf
    by_cases hieq : i = ms.length
    · subst hieq
      rw [readMarkersAux]
      rcases hstop with hs | hs
      · rw [hs]
        cases vLookup (titleKey ms.length) st <;> simp
      · rw [hs]
        cases vLookup (timeKey ms.length) st <;> simp
    · have hilt : i < ms.length := by omega
      obtain ⟨w, hw, hwt⟩ := hN i hilt
      rw [readMarkersAux, hT i hilt, hw]
      show readMarkersAux st f (i + 1) (⟨(ms.getD i ⟨0, ""⟩).time_seconds, w.text⟩ :: acc) = _
      rw [ih (i + 1) _ (by omega) (by omega)]
      rw [hwt]
      have hms : ms.drop i = ms.getD i ⟨0, ""⟩ :: ms.drop (i + 1) := by
        rw [List.drop_eq_getElem_cons hilt]
        rw [List.getD_eq_getElem?_getD, List.getElem?_eq_getElem hilt]
        rfl
      rw [hms]
      simp

theorem readMarkersAux_parsefail (st : VorbisStore) (b : ℕ) (w : VorbisValue)
    (hEnt : ∀ q, q < b → (∃ t, vLookup (timeKey q) st = some (.num t)) ∧
      (vLookup (titleKey q) st).isSome)
    (hbT : vLookup (timeKey b) st = some w)
    (hbP : parseFloat? w = none)
    (hbN : (vLookup (titleKey b) st).isSome) :
    ∀ (fuel i : ℕ) (acc : List Marker), i ≤ b → b - i < fuel →
    readMarkersAux st fuel i acc = none := by
  intro fuel
  induction fuel with
  | zero => intro i acc hi hf; omega
  | succ f ih =>
    intro i acc hi hf
    by_cases hieq : i = b
    · subst hieq
      obtain ⟨tw, htw⟩ := Option.isSome_iff_exists.mp hbN
      rw [readMarkersAux, hbT, htw]
      show (match parseFloat? w with
            | some t => readMarkersAux st f (i + 1) (⟨t, tw.text⟩ :: acc)
            | none => none) = none
      rw [hbP]
    · have hilt : i < b := by omega
      obtain ⟨⟨t, ht⟩, hN2⟩ := hEnt i hilt
      obtain ⟨tw, htw⟩ := Option.isSome_iff_exists.mp hN2
      rw [readMarkersAux, ht, htw]
      show readMarkersAux st f (i + 1) _ = none
      exact ih (i + 1) _ (by omega) (by omega)

/-- C1 (amended): writing markers with the Marker Codec write path over any
pre-existing store and immediately reading them back returns exactly the
written `(offset_seconds, title)` pairs when at least one marker was
written; the empty marker list reads back as `none` ("no markers
available"), not as the empty list. -/
theorem writeOggMarkers_read_roundtrip (metadata : BookMetadata) (markers : List Marker)
    (st : VorbisStore) :
    read_ogg_markers (writeOggMarkers metadata markers st) =
      if markers.isEmpty then none else some markers := by
  have hW : writeOggMarkers metadata markers st =
      writeChapterFields markers 0
        ((vInsert "artist" (.raw metadata.artist)
          (vInsert "title" (.raw metadata.title) st)).filter
          (fun e => ¬ (isChapterKey e.1 = true))) := rfl
  set s3 := (vInsert "artist" (.raw metadata.artist)
    (vInsert "title" (.raw metadata.title) st)).filter
    (fun e => ¬ (isChapterKey e.1 = true)) with hs3
  set W := writeChapterFields markers 0 s3 with hWdef
  have hT : ∀ q, q < markers.length →
      vLookup (timeKey q) W = some (.num ((markers.getD q ⟨0, ""⟩).time_seconds)) := by
    intro q hq
    have := vLookup_writeChapterFields_time markers 0 q s3 hq
    simpa using this
  have hN : ∀ q, q < markers.length →
      ∃ w, vLookup (titleKey q) W = some w ∧ w.text = (markers.getD q ⟨0, ""⟩).title := by
    intro q hq
    refine ⟨.raw ((markers.getD q ⟨0, ""⟩).title), ?_, rfl⟩
    have := vLookup_writeChapterFields_title markers 0 q s3 hq
    simpa using this
  have hstop : vLookup (timeKey markers.length) W = none ∨
      vLookup (titleKey markers.length) W = none := by
    left
    rw [hWdef, vLookup_writeChapterFields_out markers 0 s3 (timeKey markers.length)
      (fun j _ hj2 =>
        ⟨fun he => by have := timeKey_injective he; omega,
         timeKey_ne_titleKey markers.length j⟩)]
    exact vLookup_clearChapters _ _ (isChapterKey_timeKey markers.length)
  have hlen : W.length = s3.length + 2 * markers.length := by
    rw [hWdef]
    exact writeChapterFields_length markers 0 s3 (fun j _ =>
      ⟨vLookup_clearChapters _ _ (isChapterKey_timeKey j),
       vLookup_clearChapters _ _ (isChapterKey_titleKey j)⟩)
  rw [hW, read_ogg_markers,
    readMarkersAux_run W markers hT hN hstop (W.length + 1) 0 [] (by omega) (by omega)]
  simp

/-- C1 counterexample: for marker count 0 the write-then-read round trip
yields `none` ("no markers available"), which is not the written empty
pair list. -/
theorem writeOggMarkers_read_empty_none :
    read_ogg_markers (writeOggMarkers ⟨"T", "A"⟩ [] []) = none ∧
    (none : Option (List Marker)) ≠ some [] := ⟨rfl, by simp⟩

/-- C4 (amended): the read path returns exactly the markers of the maximal
contiguous index run starting at 0 (so a store with indices 0, 1 and 3
yields exactly the two markers at 0 and 1), and reports "no markers
available" exactly when the run is empty (index 0 missing) — a one-entry
run is returned, not reported missing — or when a start-time value inside
the run fails numeric parsing. -/
theorem read_ogg_markers_contiguous (st : VorbisStore) (n : ℕ) (τ : ℕ → ℚ)
    (v : ℕ → VorbisValue) :
    ((∀ q, q < n → vLookup (timeKey q) st = some (.num (τ q))) →
     (∀ q, q < n → vLookup (titleKey q) st = some (v q)) →
     (vLookup (timeKey n) st = none ∨ vLookup (titleKey n) st = none) →
     n ≤ st.length →
     read_ogg_markers st =
       if n = 0 then none
       else some ((List.range n).map fun q => ⟨τ q, (v q).text⟩))
    ∧ (∀ (b : ℕ) (w : VorbisValue),
       (∀ q, q < b → (∃ t, vLookup (timeKey q) st = some (.num t)) ∧
         (vLookup (titleKey q) st).isSome) →
       vLookup (timeKey b) st = some w →
       parseFloat? w = none →
       (vLookup (titleKey b) st).isSome →
       b ≤ st.length →
       read_ogg_markers st = none) := by
  constructor
  · intro hT hN hstop hfuel
    set ms : List Marker := (List.range n).map fun q => ⟨τ q, (v q).text⟩ with hms
    have hmslen : ms.length = n := by simp [hms]
    have hget : ∀ q, q < n → ms.getD q ⟨0, ""⟩ = ⟨τ q, (v q).text⟩ := by
      intro q hq
      rw [hms]
      rw [List.getD_eq_getElem?_getD, List.getElem?_map, List.getElem?_range hq]
      rfl
    have hT2 : ∀ q, q < ms.length →
        vLookup (timeKey q) st = some (.num ((ms.getD q ⟨0, ""⟩).time_seconds)) := by
      intro q hq
      rw [hget q (hmslen ▸ hq)]
      exact hT q (hmslen ▸ hq)
    have hN2 : ∀ q, q < ms.length →
        ∃ w, vLookup (titleKey q) st = some w ∧ w.text = (ms.getD q ⟨0, ""⟩).title := by
      intro q hq
      refine ⟨v q, hN q (hmslen ▸ hq), ?_⟩
      rw [hget q (hmslen ▸ hq)]
    have hstop2 : vLookup (timeKey ms.length) st = none ∨
        vLookup (titleKey ms.length) st = none := by
      rw [hmslen]
      exact hstop
    rw [read_ogg_markers,
      readMarkersAux_run st ms hT2 hN2 hstop2 (st.length + 1) 0 [] (by omega) (by omega)]
    simp only [List.reverse_nil, List.nil_append, List.drop_zero]
    by_cases hn : n = 0
    · subst hn
      simp [hms]
    · rw [if_neg hn]
      have hlen0 : ms.length ≠ 0 := by rw [hmslen]; exact hn
      have hie : ms.isEmpty = false := by
        cases hc : ms
        · rw [hc] at hlen0
          simp at hlen0
        · rfl
      simp [hie, hms]
  · intro b w hEnt hbT hbP hbN hfuel
    rw [read_ogg_markers,
      readMarkersAux_parsefail st b w hEnt hbT hbP hbN (st.length + 1) 0 [] (by omega)
        (by omega)]

/-- Witness for C4 on the store with indices 0, 1 and 3 (a gap at 2):
exactly the two markers at indices 0 and 1 are returned, never the one at
index 3. -/
theorem read_ogg_markers_contiguous_instance :
    read_ogg_markers
      [("chapter_start_time_0", .num (3/2)), ("chapter_title_0", .raw "One"),
       ("chapter_start_time_1", .num (7/2)), ("chapter_title_1", .raw "Two"),
       ("chapter_start_time_3", .num 9), ("chapter_title_3", .raw "Four")] =
      some [⟨3/2, "One"⟩, ⟨7/2, "Two"⟩] := by
  have h := (read_ogg_markers_contiguous
    [("chapter_start_time_0", .num (3/2)), ("chapter_title_0", .raw "One"),
     ("chapter_start_time_1", .num (7/2)), ("chapter_title_1", .raw "Two"),
     ("chapter_start_time_3", .num 9), ("chapter_title_3", .raw "Four")]
    2 (fun q => if q = 0 then 3/2 else 7/2)
    (fun q => if q = 0 then .raw "One" else .raw "Two")).1
    (fun q hq => by
      match q, hq with
      | 0, _ => rfl
      | 1, _ => rfl)
    (fun q hq => by
      match q, hq with
      | 0, _ => rfl
      | 1, _ => rfl)
    (Or.inl rfl)
    (by norm_num)
  rw [h]
  rfl

/-- C4 counterexample: a store holding exactly one consecutive entry
(index 0 only, fewer than 2) yields that one marker instead of the
"no markers available" report the claim requires. -/
theorem read_ogg_markers_single_entry :
    read_ogg_markers [("chapter_start_time_0", .num 1), ("chapter_title_0", .raw "One")] =
      some [⟨1, "One"⟩] ∧ some [(⟨1, "One"⟩ : Marker)] ≠ none := ⟨rfl, by simp⟩

/-! ## Lemmas about the filename derivation -/

theorem mem_collapseWsAux {l : List Char} {c : Char} :
    ∀ b, c ∈ collapseWsAux b l → isPySpace c = false ∧ (c = '_' ∨ c ∈ l) := by
  induction l with
  | nil => intro b h; cases h
  | cons d rest ih =>
    intro b h
    rw [collapseWsAux] at h
    by_cases hd : isPySpace d = true
    · rw [if_pos hd] at h
      by_cases hb : b = true
      · rw [if_pos hb] at h
        obtain ⟨h1, h2⟩ := ih true h
        exact ⟨h1, h2.imp id (List.mem_cons_of_mem d)⟩
      · rw [if_neg hb] at h
        rcases List.mem_cons.mp h with rfl | h2
        · exact ⟨rfl, Or.inl rfl⟩
        · obtain ⟨h1, h3⟩ := ih true h2
          exact ⟨h1, h3.imp id (List.mem_cons_of_mem d)⟩
    · rw [if_neg hd] at h
      rcases List.mem_cons.mp h with rfl | h2
      · exact ⟨Bool.not_eq_true _ ▸ Bool.of_not_eq_true hd, Or.inr (List.mem_cons_self c rest)⟩
      · obtain ⟨h1, h3⟩ := ih false h2
        exact ⟨h1, h3.imp id (List.mem_cons_of_mem d)⟩

theorem collapseWsAux_of_no_space {l : List Char}
    (h : ∀ c ∈ l, isPySpace c = false) : ∀ b, collapseWsAux b l = l := by
  induction l with
  | nil => intro b; rfl
  | cons d rest ih =>
    intro b
    rw [collapseWsAux, if_neg (by rw [h d (List.mem_cons_self d rest)]; simp)]
    rw [ih (fun c hc => h c (List.mem_cons_of_mem d hc)) false]

theorem dropWhile_of_all_false {p : Char → Bool} {l : List Char}
    (h : ∀ c ∈ l, p c = false) : l.dropWhile p = l := by
  cases l with
  | nil => rfl
  | cons d rest =>
    rw [List.dropWhile_cons, if_neg (by rw [h d (List.mem_cons_self d rest)]; simp)]

theorem pyStrip_of_no_space {l : List Char}
    (h : ∀ c ∈ l, isPySpace c = false) : pyStrip l = l := by
  rw [pyStrip, dropWhile_of_all_false h,
    dropWhile_of_all_false (fun c hc => h c (List.mem_reverse.mp hc)), List.reverse_reverse]

theorem mem_pyStrip {l : List Char} {c : Char} (h : c ∈ pyStrip l) : c ∈ l := by
  rw [pyStrip] at h
  have h1 := List.mem_reverse.mp h
  have h2 := (List.dropWhile_sublist isPySpace).subset h1
  have h3 := List.mem_reverse.mp h2
  exact (List.dropWhile_sublist isPySpace).subset h3

/-- C9 (amended): the strip/collapse/truncate sanitization core of
`safe_filename` is idempotent on its own output; the full derivation is
not, because it prepends the two-digit chapter index again. -/
theorem sanitizeTitle_idempotent (title : String) :
    sanitizeTitle (sanitizeTitle title) = sanitizeTitle title := by
  rw [sanitizeTitle]
  set s2 := collapseWs (pyStrip (title.data.filter keepChar)) with hs2
  set s3 := s2.take 50 with hs3
  have hmem : ∀ c ∈ s3, isPySpace c = false ∧ keepChar c = true := by
    intro c hc
    have hc2 : c ∈ s2 := (List.take_sublist 50 s2).subset hc
    rw [hs2, collapseWs] at hc2
    obtain ⟨h1, h2⟩ := mem_collapseWsAux false hc2
    refine ⟨h1, ?_⟩
    rcases h2 with rfl | h3
    · rfl
    · have h4 := mem_pyStrip h3
      exact (List.mem_filter.mp h4).2
  show sanitizeTitle ⟨s3⟩ = ⟨s3⟩
  rw [sanitizeTitle]
  have hf : List.filter keepChar s3 = s3 :=
    List.filter_eq_self.mpr (fun c hc => (hmem c hc).2)
  have hst : pyStrip s3 = s3 := pyStrip_of_no_space (fun c hc => (hmem c hc).1)
  have hcw : collapseWs s3 = s3 :=
    collapseWsAux_of_no_space (fun c hc => (hmem c hc).1) false
  have htk : s3.take 50 = s3 :=
    List.take_of_length_le (List.length_take_le 50 s2)
  show (⟨(collapseWs (pyStrip ((⟨s3⟩ : String).data.filter keepChar))).take 50⟩ : String) = ⟨s3⟩
  rw [show ((⟨s3⟩ : String).data) = s3 from rfl, hf, hst, hcw, htk]

/-- C9 counterexample: applying the full filename derivation (including
the two-digit index) a second time to its own output changes it. -/
theorem safe_filename_not_idempotent :
    safe_filename (safe_filename "Hello" 1) 1 ≠ safe_filename "Hello" 1 := by decide

/-! ## Lemmas about Marker Recovery (approximate estimation) -/

theorem approxGo_titles (total_chars : ℕ) (tts_duration : ℚ) :
    ∀ (t : ℚ) (segments : List (String × String)),
    (approxGo total_chars tts_duration t segments).map Marker.title = segments.map Prod.fst
  | _, [] => rfl
  | t, (title, text_content) :: rest => by
    simp only [approxGo, List.map_cons]
    rw [approxGo_titles total_chars tts_duration _ rest]

theorem approxGo_length (total_chars : ℕ) (tts_duration : ℚ) (t : ℚ)
    (segments : List (String × String)) :
    (approxGo total_chars tts_duration t segments).length = segments.length := by
  have := congrArg List.length (approxGo_titles total_chars tts_duration t segments)
  simpa using this

theorem approxGo_time (total_chars : ℕ) (tts_duration : ℚ) :
    ∀ (segments : List (String × String)) (t : ℚ) (j : ℕ), j < segments.length →
    ((approxGo total_chars tts_duration t segments).getD j ⟨0, ""⟩).time_seconds =
      t + tts_duration *
        (((segments.take j).map (fun s => (s.2.length : ℚ))).sum / (total_chars : ℚ)) := by
  intro segments
  induction segments with
  | nil => intro t j hj; simp at hj
  | cons s rest ih =>
    intro t j hj
    obtain ⟨title, text_content⟩ := s
    cases j with
    | zero =>
      simp only [approxGo, List.getD_cons_zero, List.take_zero, List.map_nil, List.sum_nil]
      rw [zero_div, mul_zero, add_zero]
    | succ j2 =>
      simp only [approxGo, List.getD_cons_succ, List.take_succ_cons, List.map_cons,
        List.sum_cons]
      rw [ih _ j2 (by simpa using hj)]
      ring

/-- C6: marker estimation returns the empty list exactly when the total
character count is 0 or `tts_duration = max(0, D - lead_in - lead_out)` is
0; otherwise it yields one marker per segment, in order, whose offset is
the lead-in plus `tts_duration` times the preceding segments' share of the
total character count. -/
theorem calculate_approximate_markers_spec (segments : List (String × String))
    (total_ogg_duration : ℚ) :
    (calculate_approximate_markers segments total_ogg_duration = [] ↔
      totalChars segments = 0 ∨
      max 0 (total_ogg_duration - (SILENCE_PRE_SECONDS + SILENCE_POST_SECONDS)) = 0)
    ∧ (totalChars segments ≠ 0 →
       max 0 (total_ogg_duration - (SILENCE_PRE_SECONDS + SILENCE_POST_SECONDS)) ≠ 0 →
       (calculate_approximate_markers segments total_ogg_duration).map Marker.title =
         segments.map Prod.fst
       ∧ ∀ j, j < segments.length →
         ((calculate_approximate_markers segments total_ogg_duration).getD j
             ⟨0, ""⟩).time_seconds =
           SILENCE_PRE_SECONDS +
             max 0 (total_ogg_duration - (SILENCE_PRE_SECONDS + SILENCE_POST_SECONDS)) *
               (((segments.take j).map (fun s => (s.2.length : ℚ))).sum /
                 (totalChars segments : ℚ))) := by
  constructor
  · constructor
    · intro hnil
      by_contra hcond
      push_neg at hcond
      rw [calculate_approximate_markers] at hnil
      rw [if_neg (by push_neg; exact hcond)] at hnil
      have hlen := congrArg List.length hnil
      rw [approxGo_length] at hlen
      simp only [List.length_nil] at hlen
      have : totalChars segments = 0 := by
        rw [totalChars, List.length_eq_zero.mp hlen]
        rfl
      exact hcond.1 this
    · intro hcond
      rw [calculate_approximate_markers, if_pos hcond]
  · intro hc htts
    constructor
    · rw [calculate_approximate_markers, if_neg (by push_neg; exact ⟨hc, htts⟩)]
      exact approxGo_titles _ _ _ segments
    · intro j hj
      rw [calculate_approximate_markers, if_neg (by push_neg; exact ⟨hc, htts⟩)]
      exact approxGo_time _ _ segments _ j hj

/-- Witness for C6 with character lengths 10, 30, 60 and total duration
105.5: the estimated offset of the third segment is 40.5. -/
theorem calculate_approximate_markers_spec_instance :
    ((calculate_approximate_markers
        [("A", ⟨List.replicate 10 'a'⟩), ("B", ⟨List.replicate 30 'b'⟩),
         ("C", ⟨List.replicate 60 'c'⟩)] (211/2)).getD 2 ⟨0, ""⟩).time_seconds = 81/2 := by
  have l1 : (⟨List.replicate 10 'a'⟩ : String).length = 10 := rfl
  have l2 : (⟨List.replicate 30 'b'⟩ : String).length = 30 := rfl
  have ht : totalChars
      [("A", ⟨List.replicate 10 'a'⟩), ("B", ⟨List.replicate 30 'b'⟩),
       ("C", ⟨List.replicate 60 'c'⟩)] = 100 := rfl
  have h := (calculate_approximate_markers_spec
    [("A", ⟨List.replicate 10 'a'⟩), ("B", ⟨List.replicate 30 'b'⟩),
     ("C", ⟨List.replicate 60 'c'⟩)] (211/2)).2
    (by rw [ht]; norm_num) (by norm_num [SILENCE_PRE_SECONDS, SILENCE_POST_SECONDS])
  rw [h.2 2 (by norm_num), ht]
  simp only [List.take_succ_cons, List.take_zero, List.map_cons, List.map_nil,
    List.sum_cons, List.sum_nil, l1, l2]
  norm_num [SILENCE_PRE_SECONDS, SILENCE_POST_SECONDS]

/-! ## Lemmas about the Marker Projector -/

theorem mp3ChapFramesGo_length (all : List Marker) :
    ∀ (i : ℕ) (rest : List Marker), (mp3ChapFramesGo all i rest).length = rest.length
  | _, [] => rfl
  | i, m :: rest2 => by
    simp only [mp3ChapFramesGo, List.length_cons]
    rw [mp3ChapFramesGo_length all (i + 1) rest2]

theorem mp3ChapFramesGo_getD (all : List Marker) :
    ∀ (rest : List Marker) (i j : ℕ), rest = all.drop i → j < rest.length →
    (mp3ChapFramesGo all i rest).getD j ⟨"", 0, 0, ""⟩ =
      ⟨"chp_" ++ Nat.repr (i + j + 1),
       pyIntTrunc ((all.getD (i + j) ⟨0, ""⟩).time_seconds * 1000),
       if i + j + 1 < all.length then
         pyIntTrunc ((all.getD (i + j + 1) ⟨0, ""⟩).time_seconds * 1000)
       else 0,
       (all.getD (i + j) ⟨0, ""⟩).title⟩ := by
  intro rest
  induction rest with
  | nil => intro i j _ hj; simp at hj
  | cons m rest2 ih =>
    intro i j hdrop hj
    have hi : i < all.length := by
      by_contra hge
      push_neg at hge
      rw [List.drop_eq_nil_of_le hge] at hdrop
      cases hdrop
    have hm : all.getD i ⟨0, ""⟩ = m := by
      have h0 := List.getElem?_drop all i 0
      rw [← hdrop] at h0
      simp only [Nat.add_zero] at h0
      rw [List.getD_eq_getElem?_getD, ← h0]
      simp
    have hrest2 : rest2 = all.drop (i + 1) := by
      have := congrArg List.tail hdrop
      simpa [List.tail_drop] using this
    cases j with
    | zero =>
      simp only [mp3ChapFramesGo, List.getD_cons_zero, Nat.add_zero]
      rw [hm]
    | succ j2 =>
      simp only [mp3ChapFramesGo, List.getD_cons_succ]
      rw [ih (i + 1) j2 hrest2 (by simpa using hj)]
      have e1 : i + (j2 + 1) = i + 1 + j2 := by omega
      rw [e1]

theorem mp3ChapFramesGo_ids (all : List Marker) :
    ∀ (i : ℕ) (rest : List Marker),
    (mp3ChapFramesGo all i rest).map ChapFrame.element_id =
      (List.range' (i + 1) rest.length).map (fun j => "chp_" ++ Nat.repr j)
  | _, [] => rfl
  | i, m :: rest2 => by
    simp only [mp3ChapFramesGo, List.map_cons, List.length_cons, List.range'_succ]
    rw [mp3ChapFramesGo_ids all (i + 1) rest2]

/-- C7 (amended): the Marker Projector emits one chapter per marker in
marker order with pairwise distinct identifiers; the start offset is
`offset_seconds * 1000` truncated toward zero (Python `int()`, not
`round`), the end offset equals the next chapter's start, and the last
chapter gets the sentinel 0. -/
theorem write_mp3_chapter_tags_spec (markers : List Marker) (metadata : BookMetadata) :
    ((write_mp3_chapter_tags markers metadata).chaps.length = markers.length)
    ∧ (∀ j, j < markers.length →
       ((write_mp3_chapter_tags markers metadata).chaps.getD j ⟨"", 0, 0, ""⟩).start_time =
         pyIntTrunc ((markers.getD j ⟨0, ""⟩).time_seconds * 1000)
       ∧ ((write_mp3_chapter_tags markers metadata).chaps.getD j ⟨"", 0, 0, ""⟩).chap_title =
         (markers.getD j ⟨0, ""⟩).title)
    ∧ (∀ j, j + 1 < markers.length →
       ((write_mp3_chapter_tags markers metadata).chaps.getD j ⟨"", 0, 0, ""⟩).end_time =
         ((write_mp3_chapter_tags markers metadata).chaps.getD (j + 1) ⟨"", 0, 0, ""⟩).start_time)
    ∧ (∀ j, j + 1 = markers.length →
       ((write_mp3_chapter_tags markers metadata).chaps.getD j ⟨"", 0, 0, ""⟩).end_time = 0)
    ∧ ((write_mp3_chapter_tags markers metadata).chaps.map ChapFrame.element_id).Nodup := by
  have hdrop : markers = markers.drop 0 := rfl
  refine ⟨?_, ?_, ?_, ?_, ?_⟩
  · rw [write_mp3_chapter_tags]
    exact mp3ChapFramesGo_length markers 0 markers
  · intro j hj
    rw [write_mp3_chapter_tags]
    show ((mp3ChapFramesGo markers 0 markers).getD j ⟨"", 0, 0, ""⟩).start_time = _
      ∧ ((mp3ChapFramesGo markers 0 markers).getD j ⟨"", 0, 0, ""⟩).chap_title = _
    rw [mp3ChapFramesGo_getD markers markers 0 j hdrop hj]
    simp
  · intro j hj
    rw [write_mp3_chapter_tags]
    show ((mp3ChapFramesGo markers 0 markers).getD j ⟨"", 0, 0, ""⟩).end_time =
      ((mp3ChapFramesGo markers 0 markers).getD (j + 1) ⟨"", 0, 0, ""⟩).start_time
    rw [mp3ChapFramesGo_getD markers markers 0 j hdrop (by omega),
      mp3ChapFramesGo_getD markers markers 0 (j + 1) hdrop hj]
    simp only [Nat.zero_add]
    rw [if_pos hj]
  · intro j hj
    rw [write_mp3_chapter_tags]
    show ((mp3ChapFramesGo markers 0 markers).getD j ⟨"", 0, 0, ""⟩).end_time = 0
    rw [mp3ChapFramesGo_getD markers markers 0 j hdrop (by omega)]
    simp only [Nat.zero_add]
    rw [if_neg (by omega)]
  · rw [write_mp3_chapter_tags]
    show ((mp3ChapFramesGo markers 0 markers).map ChapFrame.element_id).Nodup
    rw [mp3ChapFramesGo_ids markers 0 markers]
    refine List.Nodup.map ?_ (List.nodup_range' ..)
    intro a b hab
    have hd := congrArg String.data hab
    simp only [String.data_append] at hd
    exact natRepr_injective (String.ext (List.append_cancel_left hd))

/-- Witness for C7: markers at 0.5s, 3.2s and 9.0s project to chapter end
times 3200, 9000 and 0 milliseconds, with the last chapter unbounded. -/
theorem write_mp3_chapter_tags_spec_instance :
    ((write_mp3_chapter_tags [⟨1/2, "A"⟩, ⟨16/5, "B"⟩, ⟨9, "C"⟩] ⟨"T", "P"⟩).chaps.getD 0
      ⟨"", 0, 0, ""⟩).end_time = 3200
    ∧ ((write_mp3_chapter_tags [⟨1/2, "A"⟩, ⟨16/5, "B"⟩, ⟨9, "C"⟩] ⟨"T", "P"⟩).chaps.getD 1
      ⟨"", 0, 0, ""⟩).end_time = 9000
    ∧ ((write_mp3_chapter_tags [⟨1/2, "A"⟩, ⟨16/5, "B"⟩, ⟨9, "C"⟩] ⟨"T", "P"⟩).chaps.getD 2
      ⟨"", 0, 0, ""⟩).end_time = 0 := by
  have h := write_mp3_chapter_tags_spec [⟨1/2, "A"⟩, ⟨16/5, "B"⟩, ⟨9, "C"⟩] ⟨"T", "P"⟩
  refine ⟨?_, ?_, ?_⟩
  · rw [h.2.2.1 0 (by norm_num), (h.2.1 1 (by norm_num)).1]
    show pyIntTrunc ((16 : ℚ)/5 * 1000) = 3200
    rw [pyIntTrunc, if_neg (by norm_num)]
    rw [show (16 : ℚ)/5 * 1000 = ((3200 : ℤ) : ℚ) by norm_num]
    rw [Int.floor_intCast]
  · rw [h.2.2.1 1 (by norm_num), (h.2.1 2 (by norm_num)).1]
    show pyIntTrunc ((9 : ℚ) * 1000) = 9000
    rw [pyIntTrunc, if_neg (by norm_num)]
    rw [show (9 : ℚ) * 1000 = ((9000 : ℤ) : ℚ) by norm_num]
    rw [Int.floor_intCast]
  · exact h.2.2.2.1 2 (by norm_num)

/-- C7 counterexample: the start offset is truncated, not rounded — a
marker at 0.0015 seconds gets start time 1 ms where rounding
`offset_seconds * 1000` gives 2 ms. -/
theorem mp3_start_time_truncates_not_rounds :
    ((write_mp3_chapter_tags [⟨3/2000, "A"⟩] ⟨"T", "P"⟩).chaps.getD 0
      ⟨"", 0, 0, ""⟩).start_time = 1
    ∧ round ((3/2000 : ℚ) * 1000) = 2
    ∧ (1 : ℤ) ≠ 2 := by
  refine ⟨?_, ?_, by norm_num⟩
  · show pyIntTrunc ((3/2000 : ℚ) * 1000) = 1
    rw [pyIntTrunc, if_neg (by norm_num)]
    rw [show (3 : ℚ)/2000 * 1000 = 3/2 by norm_num]
    rw [Int.floor_eq_iff]
    norm_num
  · rw [show (3 : ℚ)/2000 * 1000 = 3/2 by norm_num, round_eq]
    rw [show (3 : ℚ)/2 + 1/2 = ((2 : ℤ) : ℚ) by norm_num]
    rw [Int.floor_intCast]

/-! ## Lemmas about the filesystem model and the chapter controller -/

theorem fsExists_fsAdd_self (fs : FS) (p : String) : fsExists (fsAdd fs p) p = true := by
  rw [fsAdd]
  by_cases h : p ∈ fs
  · rw [if_pos h, fsExists]
    simpa using h
  · rw [if_neg h, fsExists]
    simp

theorem fsExists_fsAdd_of_mem {fs : FS} {q : String} (h : fsExists fs q = true)
    (p : String) : fsExists (fsAdd fs p) q = true := by
  rw [fsExists] at h
  rw [fsAdd]
  by_cases hp : p ∈ fs
  · rw [if_pos hp]
    exact h
  · rw [if_neg hp, fsExists]
    simp only [List.mem_cons, decide_eq_true_eq]
    right
    simpa using h

theorem fsExists_fsAdd_ne {p q : String} (h : q ≠ p) (fs : FS) :
    fsExists (fsAdd fs p) q = fsExists fs q := by
  rw [fsAdd]
  by_cases hp : p ∈ fs
  · rw [if_pos hp]
  · rw [if_neg hp, fsExists, fsExists, decide_eq_decide]
    simp [List.mem_cons, h]

theorem fsExists_fsRemove_self (fs : FS) (p : String) :
    fsExists (fsRemove fs p) p = false := by
  rw [fsRemove, fsExists]
  simp only [decide_eq_false_iff_not, List.mem_filter]
  intro hc
  obtain ⟨_, hmem⟩ := hc
  simp at hmem

theorem fsExists_fsRemove_ne {p q : String} (h : q ≠ p) (fs : FS) :
    fsExists (fsRemove fs p) q = fsExists fs q := by
  rw [fsRemove]
  rw [fsExists, fsExists, decide_eq_decide]
  simp only [List.mem_filter, decide_eq_true_eq]
  constructor
  · intro hc
    exact hc.1
  · intro hm
    exact ⟨hm, h⟩

theorem fsExists_fsRemove_of_not_mem {fs : FS} {q : String}
    (h : fsExists fs q = false) (p : String) : fsExists (fsRemove fs p) q = false := by
  rw [fsRemove]
  rw [fsExists] at h ⊢
  simp only [decide_eq_false_iff_not, List.mem_filter] at h ⊢
  intro hc
  exact h hc.1

/-- C5 (amended): when the final output path already exists, no mode
writes anything: the standard single-file/combined run stops with
`sys.exit(1)` and an unchanged filesystem; the direct-chapter branch and
the interactive single-chapter selection print a warning and return
normally (the process then exits 0, not non-zero); batch split mode skips
the existing item and continues with the rest. -/
theorem preexisting_output_behavior :
    (∀ (fs : FS) (oggPath mp3Path : String) (mp3 synthRaises : Bool) (conv : ConvertOutcome),
      fsExists fs (if mp3 then mp3Path else oggPath) = true →
      main_run fs oggPath mp3Path mp3 synthRaises conv = .exited 1 fs)
    ∧ (∀ (fs : FS) (segments : List (String × String)) (idx : ℤ) (stem : String) (mp3 : Bool),
       1 ≤ idx → idx ≤ segments.length →
       fsExists fs (chapterFinal
         (chapterBase stem (segments.getD (idx.toNat - 1) ("", "")).1 idx.toNat) mp3) = true →
       run_chapter_direct fs segments idx stem mp3 = some (.returned fs))
    ∧ (∀ (fs : FS) (segments : List (String × String)) (idx : ℕ) (stem : String) (mp3 : Bool),
       1 ≤ idx → idx ≤ segments.length →
       fsExists fs (chapterFinal
         (chapterBase stem (segments.getD (idx - 1) ("", "")).1 idx) mp3) = true →
       run_interactive_single fs segments idx stem mp3 = .returned fs)
    ∧ (∀ (fs : FS) (stem : String) (mp3 : Bool) (i : ℕ) (title text : String)
         (rest : List (String × String)),
       fsExists fs (chapterFinal (chapterBase stem title i) mp3) = true →
       run_split_go stem mp3 fs i ((title, text) :: rest) =
         run_split_go stem mp3 fs (i + 1) rest) := by
  refine ⟨?_, ?_, ?_, ?_⟩
  · intro fs oggPath mp3Path mp3 synthRaises conv h
    rw [main_run]
    rw [if_pos h]
  · intro fs segments idx stem mp3 h1 h2 h3
    rw [run_chapter_direct, if_pos ⟨h1, h2⟩]
    rw [if_pos h3]
  · intro fs segments idx stem mp3 h1 h2 h3
    rw [run_interactive_single, if_pos ⟨h1, h2⟩]
    rw [if_pos h3]
  · intro fs stem mp3 i title text rest h
    rw [run_split_go]
    rw [if_pos h]

/-- Witness for C5 at concrete filesystems and paths. -/
theorem preexisting_output_behavior_instance :
    main_run ["book.ogg"] "book.ogg" "book.mp3" false false .success =
      .exited 1 ["book.ogg"]
    ∧ run_interactive_single ["book_01_Hello.ogg"] [("Hello", "x")] 1 "book" false =
      .returned ["book_01_Hello.ogg"] := by
  constructor
  · exact preexisting_output_behavior.1 ["book.ogg"] "book.ogg" "book.mp3" false false
      .success (by decide)
  · exact preexisting_output_behavior.2.2.1 ["book_01_Hello.ogg"] [("Hello", "x")] 1 "book"
      false (by norm_num) (by norm_num) (by decide)

/-- C5 counterexample: in direct chapter mode with the output already
present, the program returns normally — the process exit status is 0,
not non-zero as the claim requires. -/
theorem direct_chapter_existing_returns_zero :
    run_chapter_direct ["book_01_Hello.ogg"] [("Hello", "x")] 1 "book" false =
      some (.returned ["book_01_Hello.ogg"])
    ∧ (ModeResult.returned ["book_01_Hello.ogg"]).exitCode = 0
    ∧ (0 : ℕ) ≠ 1 := by
  refine ⟨rfl, rfl, by norm_num⟩

theorem mainExcept_removes_ogg (fs : FS) (oggPath mp3Path : String) (mp3 : Bool) :
    fsExists (mainExcept fs oggPath mp3Path mp3 true).fs oggPath = false := by
  rw [mainExcept]
  show fsExists (ModeResult.fs (.exited 1 _)) oggPath = false
  have h1 : ∀ fs1 : FS, fsExists fs1 oggPath = false →
      fsExists (if fsExists fs1 mp3Path = true ∧ mp3 = true then fsRemove fs1 mp3Path else fs1)
        oggPath = false := by
    intro fs1 hf
    by_cases hc : fsExists fs1 mp3Path = true ∧ mp3 = true
    · rw [if_pos hc]
      exact fsExists_fsRemove_of_not_mem hf mp3Path
    · rw [if_neg hc]
      exact hf
  by_cases h : fsExists fs oggPath = true
  · rw [if_pos (show fsExists fs oggPath = true ∧ true = true from ⟨h, rfl⟩)]
    exact h1 _ (fsExists_fsRemove_self fs oggPath)
  · rw [if_neg (show ¬ (fsExists fs oggPath = true ∧ true = true) from fun hand => h hand.1)]
    exact h1 _ (by simpa using h)

theorem mainExcept_keeps_ogg {fs : FS} {oggPath mp3Path : String} (hne : oggPath ≠ mp3Path)
    (hogg : fsExists fs oggPath = true) (mp3 : Bool) :
    fsExists (mainExcept fs oggPath mp3Path mp3 false).fs oggPath = true := by
  rw [mainExcept]
  show fsExists (ModeResult.fs (.exited 1 _)) oggPath = true
  have h1 : ∀ fs1 : FS, fsExists fs1 oggPath = true →
      fsExists (if fsExists fs1 mp3Path = true ∧ mp3 = true then fsRemove fs1 mp3Path else fs1)
        oggPath = true := by
    intro fs1 hf
    by_cases hc : fsExists fs1 mp3Path = true ∧ mp3 = true
    · rw [if_pos hc, fsExists_fsRemove_ne hne]
      exact hf
    · rw [if_neg hc]
      exact hf
  rw [if_neg (show ¬ (fsExists fs oggPath = true ∧ false = true) from
    fun hand => by simpa using hand.2)]
  exact h1 _ hogg

/-- C10: in a combined run with MP3 conversion requested, the primary OGG
file is deleted only if the current run created it: a pre-existing,
reused OGG still exists after every outcome (success, caught conversion
failure, error cleanup); an OGG synthesized by this run is gone after a
successful conversion and after the error cleanup. -/
theorem ogg_deletion_matches_creation (fs : FS) (oggPath mp3Path : String)
    (hne : oggPath ≠ mp3Path) :
    (fsExists fs oggPath = true →
     ∀ (synthRaises : Bool) (conv : ConvertOutcome),
       fsExists (main_run fs oggPath mp3Path true synthRaises conv).fs oggPath = true)
    ∧ (fsExists fs oggPath = false → fsExists fs mp3Path = false →
       fsExists (main_run fs oggPath mp3Path true false .success).fs oggPath = false)
    ∧ (fsExists fs oggPath = false → fsExists fs mp3Path = false →
       ∀ conv, fsExists (main_run fs oggPath mp3Path true true conv).fs oggPath = false)
    ∧ (fsExists fs oggPath = false → fsExists fs mp3Path = false →
       fsExists (main_run fs oggPath mp3Path true false .raised).fs oggPath = false) := by
  refine ⟨?_, ?_, ?_, ?_⟩
  · intro hogg synthRaises conv
    rw [main_run]
    by_cases hmp3 : fsExists fs mp3Path = true
    · rw [if_pos (by simpa using hmp3)]
      exact hogg
    · rw [if_neg (by simpa using hmp3)]
      rw [hogg]
      simp only [Bool.and_self, Bool.not_true, Bool.false_eq_true, false_and, if_false]
      cases conv with
      | success =>
        show fsExists (ModeResult.fs (.returned (fsAdd fs mp3Path))) oggPath = true
        exact fsExists_fsAdd_of_mem hogg mp3Path
      | failedCaught => exact hogg
      | raised =>
        show fsExists (mainExcept (fsAdd fs mp3Path) oggPath mp3Path true false).fs
          oggPath = true
        exact mainExcept_keeps_ogg hne (fsExists_fsAdd_of_mem hogg mp3Path) true
  · intro hogg hmp3
    rw [main_run, if_neg (by simpa using hmp3)]
    rw [hogg]
    simp only [Bool.and_false, Bool.not_false, Bool.true_eq_false, false_and, true_and,
      if_false]
    show fsExists (ModeResult.fs (.returned
      (fsRemove (fsAdd (fsAdd fs oggPath) mp3Path) oggPath))) oggPath = false
    exact fsExists_fsRemove_self _ oggPath
  · intro hogg hmp3 conv
    rw [main_run, if_neg (by simpa using hmp3)]
    rw [hogg]
    simp only [Bool.and_false, Bool.not_false, true_and, if_true]
    show fsExists (mainExcept (fsAdd fs oggPath) oggPath mp3Path true true).fs
      oggPath = false
    exact mainExcept_removes_ogg _ oggPath mp3Path true
  · intro hogg hmp3
    rw [main_run, if_neg (by simpa using hmp3)]
    rw [hogg]
    simp only [Bool.and_false, Bool.not_false, Bool.true_eq_false, false_and, true_and,
      if_false]
    show fsExists (mainExcept (fsAdd (fsAdd fs oggPath) mp3Path) oggPath mp3Path
      true true).fs oggPath = false
    exact mainExcept_removes_ogg _ oggPath mp3Path true

/-- Witness for C10: a pre-existing `b.ogg` survives the error-cleanup
path; a freshly synthesized one is gone after successful conversion. -/
theorem ogg_deletion_matches_creation_instance :
    fsExists (main_run ["b.ogg"] "b.ogg" "b.mp3" true false .raised).fs "b.ogg" = true
    ∧ fsExists (main_run [] "b.ogg" "b.mp3" true false .success).fs "b.ogg" = false := by
  constructor
  · exact (ogg_deletion_matches_creation ["b.ogg"] "b.ogg" "b.mp3" (by decide)).1
      (by decide) false .raised
  · exact (ogg_deletion_matches_creation [] "b.ogg" "b.mp3" (by decide)).2.1
      (by decide) (by decide)

/-- C8: evaluating the chapter-selection resolution at the inputs where the
code diverges from its own help text ("Interactive (-k) or direct chapter
(e.g. -k 5)").  Python's `bool` is a subclass of `int`, so the normalized
`True` of a bare `-k` (and of a path-valued `-k`) enters
`run_chapter_logic`'s integer branch and is dispatched as direct chapter 1
whenever the document has at least one chapter, and `-k 0` is falsy and
silently selects no-chapter mode; the claim (and the help text) promise
the interactive menu in all three cases. -/
theorem chapter_flag_truthiness_divergence :
    resolveChapterMode [] "book.epub" .flag 3 = (.directChapter 1, "book.epub")
    ∧ resolveChapterMode [] "book.epub" (.value "0") 3 = (.noChapterMode, "book.epub")
    ∧ resolveChapterMode ["other.epub"] "missing.epub" (.value "other.epub") 3 =
        (.directChapter 1, "other.epub")
    ∧ ChapterMode.directChapter 1 ≠ ChapterMode.interactive
    ∧ ChapterMode.noChapterMode ≠ ChapterMode.interactive := by
  refine ⟨by decide, by decide, by decide, by decide, by decide⟩
